import Mathlib

/-!
# Cursor-pagination core of the `nodejs-boilerplate` repository

A shallow embedding of the algorithmic core of the repository:

* `CursorPaginator.encode` / `CursorPaginator.decode` / `CursorPaginator.buildResult`
  from `src/shared/utils/cursor-pagination.util.ts`;
* the zod-validated value object `Cursor.decode` / `Cursor.encode`
  from `src/domain/value-objects/cursor.vo.ts`.

JavaScript strings are modelled as `List Char` (lists of Unicode scalar
values).  The byte pipeline of the codec — `JSON.stringify`,
`Buffer.from(..).toString('base64url')` and its inverse, UTF-8 with
U+FFFD replacement on decoding — is modelled byte for byte; bytes are
natural numbers below 256.  All recursive functions are structurally
recursive (on an explicit fuel argument where needed) so that every
definition evaluates inside the kernel.
-/

set_option autoImplicit false

namespace Pagination

/-- The `{` character (U+007B). -/
def lbrace : Char := Char.ofNat 123

/-- The `}` character (U+007D). -/
def rbrace : Char := Char.ofNat 125

/-- JSON values as produced by `JSON.parse`.  Numbers keep their raw
lexeme: the pagination core never does arithmetic on a parsed number, so
no numeric (floating-point) semantics is needed. -/
inductive Json where
  | null : Json
  | bool : Bool → Json
  | num : List Char → Json
  | str : List Char → Json
  | arr : List Json → Json
  | obj : List (List Char × Json) → Json

instance : Inhabited Json := ⟨Json.null⟩

/-- JavaScript strict equality `j === 'lit'` between a JSON value and a
string literal: true exactly when the value is that string. -/
def Json.isStr (j : Json) (s : List Char) : Bool :=
  match j with
  | Json.str t => decide (t = s)
  | _ => false

/-- JavaScript property access `j[k]` on a parsed JSON value: on an
object the last binding for the key wins (as with `JSON.parse`, where a
duplicated key is overwritten by the later occurrence); on any other
value the access yields `undefined`, modelled as `none`. -/
def jsGet (j : Json) (k : List Char) : Option Json :=
  match j with
  | Json.obj fields => (fields.reverse.find? (fun p => decide (p.1 = k))).map Prod.snd
  | _ => none

/-! ## base64url (Node `Buffer`) -/

/-- The base64url alphabet used by `Buffer.prototype.toString('base64url')`. -/
def b64Char (n : Nat) : Char :=
  if n < 26 then Char.ofNat (65 + n)
  else if n < 52 then Char.ofNat (97 + (n - 26))
  else if n < 62 then Char.ofNat (48 + (n - 52))
  else if n = 62 then '-'
  else '_'

/-- Inverse alphabet used by `Buffer.from(s, 'base64url')`.  Node's
decoder accepts both the url-safe and the standard alphabet and ignores
every other character (`none` here means "not an alphabet character"). -/
def b64Val (c : Char) : Option Nat :=
  if 'A' ≤ c ∧ c ≤ 'Z' then some (c.toNat - 65)
  else if 'a' ≤ c ∧ c ≤ 'z' then some (26 + (c.toNat - 97))
  else if '0' ≤ c ∧ c ≤ '9' then some (52 + (c.toNat - 48))
  else if c = '-' ∨ c = '+' then some 62
  else if c = '_' ∨ c = '/' then some 63
  else none

/-- Split bytes into 6-bit groups, as base64 encoding does.  A final
group of one byte yields two sextets, of two bytes three sextets
(padding is not emitted for `'base64url'`). -/
def bytesToSextets : List Nat → List Nat
  | a :: b :: c :: rest =>
      a / 4 :: ((a % 4) * 16 + b / 16) :: ((b % 16) * 4 + c / 64) :: c % 64 ::
        bytesToSextets rest
  | [a, b] => [a / 4, (a % 4) * 16 + b / 16, (b % 16) * 4]
  | [a] => [a / 4, (a % 4) * 16]
  | [] => []

/-- Reassemble bytes from 6-bit groups, as base64 decoding does.  A
trailing group of two sextets yields one byte, of three sextets two
bytes; a lone trailing sextet carries fewer than 8 bits and is dropped,
as Node drops it. -/
def sextetsToBytes : List Nat → List Nat
  | s0 :: s1 :: s2 :: s3 :: rest =>
      (s0 * 4 + s1 / 16) :: ((s1 % 16) * 16 + s2 / 4) :: ((s2 % 4) * 64 + s3) ::
        sextetsToBytes rest
  | [s0, s1, s2] => [s0 * 4 + s1 / 16, (s1 % 16) * 16 + s2 / 4]
  | [s0, s1] => [s0 * 4 + s1 / 16]
  | [_] => []
  | [] => []

/-- `Buffer.from(bytes).toString('base64url')`: 6-bit groups through the
url-safe alphabet, no padding. -/
def base64urlEncode (bytes : List Nat) : List Char :=
  (bytesToSextets bytes).map b64Char

/-- `Buffer.from(s, 'base64url')`: characters outside the (combined)
alphabet are ignored, the remaining sextets are reassembled into bytes. -/
def base64urlDecode (s : List Char) : List Nat :=
  sextetsToBytes (s.filterMap b64Val)

/-! ## UTF-8 (Node `Buffer` read/write) -/

/-- UTF-8 encoding of one Unicode scalar value, the bytes
`Buffer.from(string)` writes for it. -/
def utf8EncodeChar (c : Char) : List Nat :=
  let n := c.toNat
  if n < 0x80 then [n]
  else if n < 0x800 then [0xC0 + n / 64, 0x80 + n % 64]
  else if n < 0x10000 then [0xE0 + n / 4096, 0x80 + (n / 64) % 64, 0x80 + n % 64]
  else [0xF0 + n / 262144, 0x80 + (n / 4096) % 64, 0x80 + (n / 64) % 64, 0x80 + n % 64]

/-- UTF-8 encoding of a string. -/
def utf8Encode (s : List Char) : List Nat :=
  (s.map utf8EncodeChar).flatten

/-- The U+FFFD replacement character emitted for ill-formed input. -/
def replChar : Char := Char.ofNat 0xFFFD

/-- Whether a byte is a UTF-8 continuation byte. -/
def isCont (b : Nat) : Bool := decide (0x80 ≤ b ∧ b ≤ 0xBF)

/-- Lower bound of the first continuation byte for a given lead byte
(WHATWG UTF-8 decode: `E0` tightens it to `A0`, `F0` to `90`). -/
def cont1Lo (b : Nat) : Nat :=
  if b = 0xE0 then 0xA0 else if b = 0xF0 then 0x90 else 0x80

/-- Upper bound of the first continuation byte for a given lead byte
(WHATWG UTF-8 decode: `ED` tightens it to `9F`, `F4` to `8F`). -/
def cont1Hi (b : Nat) : Nat :=
  if b = 0xED then 0x9F else if b = 0xF4 then 0x8F else 0xBF

/-- One step of `Buffer.prototype.toString('utf-8')` decoding, with fuel
(one unit per produced character; ill-formed input yields U+FFFD per
maximal subpart, as WHATWG/V8 decoding does). -/
def utf8DecodeAux : Nat → List Nat → List Char
  | 0, _ => []
  | fuel + 1, l =>
    match l with
    | [] => []
    | b :: bs =>
      if b < 0x80 then Char.ofNat b :: utf8DecodeAux fuel bs
      else if b < 0xC2 then replChar :: utf8DecodeAux fuel bs
      else if b < 0xE0 then
        match bs with
        | [] => [replChar]
        | b1 :: bs1 =>
          if isCont b1 then
            Char.ofNat ((b - 0xC0) * 64 + (b1 - 0x80)) :: utf8DecodeAux fuel bs1
          else replChar :: utf8DecodeAux fuel bs
      else if b < 0xF0 then
        match bs with
        | [] => [replChar]
        | b1 :: bs1 =>
          if cont1Lo b ≤ b1 ∧ b1 ≤ cont1Hi b then
            match bs1 with
            | [] => [replChar]
            | b2 :: bs2 =>
              if isCont b2 then
                Char.ofNat ((b - 0xE0) * 4096 + (b1 - 0x80) * 64 + (b2 - 0x80)) ::
                  utf8DecodeAux fuel bs2
              else replChar :: utf8DecodeAux fuel bs1
          else replChar :: utf8DecodeAux fuel bs
      else if b < 0xF5 then
        match bs with
        | [] => [replChar]
        | b1 :: bs1 =>
          if cont1Lo b ≤ b1 ∧ b1 ≤ cont1Hi b then
            match bs1 with
            | [] => [replChar]
            | b2 :: bs2 =>
              if isCont b2 then
                match bs2 with
                | [] => [replChar]
                | b3 :: bs3 =>
                  if isCont b3 then
                    Char.ofNat ((b - 0xF0) * 262144 + (b1 - 0x80) * 4096 +
                        (b2 - 0x80) * 64 + (b3 - 0x80)) :: utf8DecodeAux fuel bs3
                  else replChar :: utf8DecodeAux fuel bs2
              else replChar :: utf8DecodeAux fuel bs1
          else replChar :: utf8DecodeAux fuel bs
      else replChar :: utf8DecodeAux fuel bs

/-- `Buffer.from(bytes).toString('utf-8')`.  Every produced character
consumes at least one input byte, so the input length is enough fuel. -/
def utf8Decode (bytes : List Nat) : List Char :=
  utf8DecodeAux bytes.length bytes

/-! ## `JSON.stringify` of the cursor payload -/

/-- Lowercase hexadecimal digit, as `JSON.stringify` uses in `\u00XX`. -/
def hexDigitLc (n : Nat) : Char :=
  if n < 10 then Char.ofNat (48 + n) else Char.ofNat (87 + n)

/-- `JSON.stringify` escaping of one character inside a string literal:
`"` and `\` get a backslash, the five named control escapes are used
where they exist, the remaining control characters become `\u00XX`, and
every other character (including all non-ASCII) is emitted literally. -/
def escapeChar (c : Char) : List Char :=
  if c = '"' then ['\\', '"']
  else if c = '\\' then ['\\', '\\']
  else if c.toNat = 8 then ['\\', 'b']
  else if c.toNat = 9 then ['\\', 't']
  else if c.toNat = 10 then ['\\', 'n']
  else if c.toNat = 12 then ['\\', 'f']
  else if c.toNat = 13 then ['\\', 'r']
  else if c.toNat < 32 then
    ['\\', 'u', '0', '0', hexDigitLc (c.toNat / 16), hexDigitLc (c.toNat % 16)]
  else [c]

/-- `JSON.stringify` escaping of a whole string body. -/
def escapeString (s : List Char) : List Char :=
  (s.map escapeChar).flatten

/-- A JSON string literal: `"` + escaped body + `"`. -/
def jsonQuote (s : List Char) : List Char :=
  '"' :: escapeString s ++ ['"']

/-- Cursor direction, the union type `'forward' | 'backward'`. -/
inductive CursorDirection where
  | forward : CursorDirection
  | backward : CursorDirection
  deriving DecidableEq

/-- The characters of the direction literal. -/
def CursorDirection.toChars : CursorDirection → List Char
  | .forward => "forward".toList
  | .backward => "backward".toList

/-- `JSON.stringify({ v: value, d: direction })` exactly as both
`CursorPaginator.encode` and `Cursor.encode` build it: compact output,
keys in insertion order `v` then `d`. -/
def payloadChars (v : List Char) (d : CursorDirection) : List Char :=
  (lbrace :: '"' :: 'v' :: '"' :: ':' :: jsonQuote v) ++
    (',' :: '"' :: 'd' :: '"' :: ':' :: jsonQuote d.toChars) ++ [rbrace]

/-! ## `JSON.parse` -/

/-- JSON whitespace. -/
def isJsonWs (c : Char) : Bool :=
  decide (c = ' ' ∨ c = '\t' ∨ c = '\n' ∨ c = '\r')

/-- Drop leading JSON whitespace. -/
def skipWs : List Char → List Char
  | [] => []
  | c :: rest => if isJsonWs c then skipWs rest else c :: rest

/-- Hexadecimal digit value (both cases), for `\uXXXX` escapes. -/
def hexVal (c : Char) : Option Nat :=
  if '0' ≤ c ∧ c ≤ '9' then some (c.toNat - 48)
  else if 'a' ≤ c ∧ c ≤ 'f' then some (c.toNat - 87)
  else if 'A' ≤ c ∧ c ≤ 'F' then some (c.toNat - 55)
  else none

/-- Decimal digit test. -/
def isDigit (c : Char) : Bool := decide ('0' ≤ c ∧ c ≤ '9')

/-- Longest leading run of decimal digits. -/
def takeDigits : List Char → List Char × List Char
  | [] => ([], [])
  | c :: rest =>
    if isDigit c then
      let p := takeDigits rest
      (c :: p.1, p.2)
    else ([], c :: rest)

/-- Body of a JSON string literal after the opening quote, one fuel unit
per produced character.  Returns the decoded characters and the input
after the closing quote.  Surrogate `\uXXXX` escapes are resolved as a
pair; an unpaired surrogate escape is rejected (the model works with
Unicode scalar strings, so a JavaScript string holding a lone surrogate
is outside the model). -/
def parseStringBodyAux : Nat → List Char → Option (List Char × List Char)
  | 0, _ => none
  | fuel + 1, l =>
    match l with
    | [] => none
    | c :: rest =>
      if c = '"' then some ([], rest)
      else if c = '\\' then
        match rest with
        | [] => none
        | e :: rest1 =>
          if e = 'u' then
            match rest1 with
            | h1 :: h2 :: h3 :: h4 :: rest4 =>
              match hexVal h1, hexVal h2, hexVal h3, hexVal h4 with
              | some a, some b, some c2, some d =>
                let n := ((a * 16 + b) * 16 + c2) * 16 + d
                if n < 0xD800 ∨ 0xDFFF < n then
                  (parseStringBodyAux fuel rest4).map (fun p => (Char.ofNat n :: p.1, p.2))
                else if n ≤ 0xDBFF then
                  match rest4 with
                  | e2 :: u2 :: g1 :: g2 :: g3 :: g4 :: rest8 =>
                    if e2 = '\\' ∧ u2 = 'u' then
                      match hexVal g1, hexVal g2, hexVal g3, hexVal g4 with
                      | some a2, some b2, some c3, some d2 =>
                        let m := ((a2 * 16 + b2) * 16 + c3) * 16 + d2
                        if 0xDC00 ≤ m ∧ m ≤ 0xDFFF then
                          (parseStringBodyAux fuel rest8).map (fun p =>
                            (Char.ofNat (0x10000 + (n - 0xD800) * 1024 + (m - 0xDC00)) :: p.1,
                              p.2))
                        else none
                      | _, _, _, _ => none
                    else none
                  | _ => none
                else none
              | _, _, _, _ => none
            | _ => none
          else if e = '"' then
            (parseStringBodyAux fuel rest1).map (fun p => ('"' :: p.1, p.2))
          else if e = '\\' then
            (parseStringBodyAux fuel rest1).map (fun p => ('\\' :: p.1, p.2))
          else if e = '/' then
            (parseStringBodyAux fuel rest1).map (fun p => ('/' :: p.1, p.2))
          else if e = 'b' then
            (parseStringBodyAux fuel rest1).map (fun p => (Char.ofNat 8 :: p.1, p.2))
          else if e = 'f' then
            (parseStringBodyAux fuel rest1).map (fun p => (Char.ofNat 12 :: p.1, p.2))
          else if e = 'n' then
            (parseStringBodyAux fuel rest1).map (fun p => (Char.ofNat 10 :: p.1, p.2))
          else if e = 'r' then
            (parseStringBodyAux fuel rest1).map (fun p => (Char.ofNat 13 :: p.1, p.2))
          else if e = 't' then
            (parseStringBodyAux fuel rest1).map (fun p => (Char.ofNat 9 :: p.1, p.2))
          else none
      else if c.toNat < 32 then none
      else (parseStringBodyAux fuel rest).map (fun p => (c :: p.1, p.2))

/-- Body of a JSON string literal after the opening quote. -/
def parseStringBody (l : List Char) : Option (List Char × List Char) :=
  parseStringBodyAux l.length l

/-- The fraction part of a JSON number (possibly empty). -/
def parseFrac : List Char → Option (List Char × List Char)
  | [] => some ([], [])
  | c :: rest =>
    if c = '.' then
      match takeDigits rest with
      | ([], _) => none
      | (ds, r) => some ('.' :: ds, r)
    else some ([], c :: rest)

/-- The exponent part of a JSON number (possibly empty). -/
def parseExp : List Char → Option (List Char × List Char)
  | [] => some ([], [])
  | c :: rest =>
    if c = 'e' ∨ c = 'E' then
      let signAndRest : List Char × List Char :=
        match rest with
        | s :: r2 => if s = '+' ∨ s = '-' then ([s], r2) else ([], rest)
        | [] => ([], rest)
      match takeDigits signAndRest.2 with
      | ([], _) => none
      | (ds, r) => some (c :: signAndRest.1 ++ ds, r)
    else some ([], c :: rest)

/-- A JSON number lexeme: optional minus, integer part (a lone `0` or a
nonzero-led digit run), optional fraction, optional exponent. -/
def parseNumber (l : List Char) : Option (List Char × List Char) :=
  let p : Option (List Char × List Char) :=
    match l with
    | '-' :: r => some (['-'], r)
    | _ => some ([], l)
  match p with
  | none => none
  | some (neg, l1) =>
    match l1 with
    | [] => none
    | c :: r =>
      if c = '0' then
        match parseFrac r with
        | none => none
        | some (fr, r2) =>
          match parseExp r2 with
          | none => none
          | some (ex, r3) => some (neg ++ '0' :: fr ++ ex, r3)
      else if isDigit c then
        let ds := takeDigits r
        match parseFrac ds.2 with
        | none => none
        | some (fr, r2) =>
          match parseExp r2 with
          | none => none
          | some (ex, r3) => some (neg ++ c :: ds.1 ++ fr ++ ex, r3)
      else none

/-- The member list of a JSON object after the opening brace (nonempty
case), given a parser `pv` for the member values.  Fuel is one unit per
member. -/
def parseMembersF (pv : List Char → Option (Json × List Char)) :
    Nat → List Char → Option (List (List Char × Json) × List Char)
  | 0, _ => none
  | fuel + 1, l =>
    match skipWs l with
    | [] => none
    | c :: rest =>
      if c = '"' then
        match parseStringBody rest with
        | none => none
        | some (key, r1) =>
          match skipWs r1 with
          | [] => none
          | c2 :: r2 =>
            if c2 = ':' then
              match pv r2 with
              | none => none
              | some (v, r3) =>
                match skipWs r3 with
                | [] => none
                | c3 :: r4 =>
                  if c3 = ',' then
                    (parseMembersF pv fuel r4).map (fun p => ((key, v) :: p.1, p.2))
                  else if c3 = rbrace then some ([(key, v)], r4)
                  else none
            else none
      else none

/-- The element list of a JSON array after the opening bracket (nonempty
case), given a parser `pv` for the elements.  Fuel is one unit per
element. -/
def parseElemsF (pv : List Char → Option (Json × List Char)) :
    Nat → List Char → Option (List Json × List Char)
  | 0, _ => none
  | fuel + 1, l =>
    match pv l with
    | none => none
    | some (v, r) =>
      match skipWs r with
      | [] => none
      | c :: r2 =>
        if c = ',' then
          (parseElemsF pv fuel r2).map (fun p => (v :: p.1, p.2))
        else if c = ']' then some (v :: [], r2)
        else none

/-- A JSON value, one fuel unit per nesting level. -/
def parseValue : Nat → List Char → Option (Json × List Char)
  | 0, _ => none
  | fuel + 1, l =>
    match skipWs l with
    | [] => none
    | c :: rest =>
      if c = lbrace then
        match skipWs rest with
        | [] => none
        | c2 :: r2 =>
          if c2 = rbrace then some (Json.obj [], r2)
          else
            (parseMembersF (parseValue fuel) (c2 :: r2).length (c2 :: r2)).map
              (fun p => (Json.obj p.1, p.2))
      else if c = '[' then
        match skipWs rest with
        | [] => none
        | c2 :: r2 =>
          if c2 = ']' then some (Json.arr [], r2)
          else
            (parseElemsF (parseValue fuel) (c2 :: r2).length (c2 :: r2)).map
              (fun p => (Json.arr p.1, p.2))
      else if c = '"' then
        (parseStringBody rest).map (fun p => (Json.str p.1, p.2))
      else
        match c :: rest with
        | 't' :: 'r' :: 'u' :: 'e' :: r => some (Json.bool true, r)
        | 'f' :: 'a' :: 'l' :: 's' :: 'e' :: r => some (Json.bool false, r)
        | 'n' :: 'u' :: 'l' :: 'l' :: r => some (Json.null, r)
        | l2 =>
          if c = '-' ∨ isDigit c then
            (parseNumber l2).map (fun p => (Json.num p.1, p.2))
          else none

/-- `JSON.parse`: parse one value, then require only whitespace to
remain.  `none` models the thrown `SyntaxError`. -/
def jsonParse (l : List Char) : Option Json :=
  match parseValue (l.length + 1) l with
  | none => none
  | some (j, rest) => if skipWs rest = [] then some j else none

/-! ## The cursor codec -/

/-- The key `"v"` of the cursor payload. -/
def vKey : List Char := ['v']

/-- The key `"d"` of the cursor payload. -/
def dKey : List Char := ['d']

namespace CursorPaginator

/-- `CursorPaginator.encode` with the identity string serialization
strategy (`serialize = (v) => v`, the `createIdPaginator` configuration):
`Buffer.from(JSON.stringify({v, d})).toString('base64url')`. -/
def encode (value : List Char) (direction : CursorDirection) : List Char :=
  base64urlEncode (utf8Encode (payloadChars value direction))

/-- What `CursorPaginator.decode` actually returns: the raw `v` and `d`
properties of whatever `JSON.parse` produced.  The class performs no
validation — `parsed.v` and `parsed.d` are only type-cast — so either
field may be absent (`none`, the JavaScript `undefined`) or may hold an
arbitrary JSON value.  With the identity deserialization strategy
`value` is exactly the `v` property. -/
structure DecodedCursor where
  value : Option Json
  direction : Option Json

/-- `CursorPaginator.decode`: base64url → UTF-8 text → `JSON.parse`,
inside `try/catch`.  The two ways the body can throw are a `JSON.parse`
failure and the property access on a `null` payload; both produce
`null` (`none`).  No field validation happens. -/
def decode (cursor : List Char) : Option DecodedCursor :=
  match jsonParse (utf8Decode (base64urlDecode cursor)) with
  | none => none
  | some Json.null => none
  | some j => some ⟨jsGet j vKey, jsGet j dKey⟩

end CursorPaginator

/-- The `Cursor` value object: an immutable `(value, direction)` pair. -/
structure Cursor where
  value : List Char
  direction : CursorDirection
  deriving DecidableEq

namespace Cursor

/-- `cursorPayloadSchema.parse` (zod): the payload must be an object
whose `v` is a string and whose `d` is one of the two direction
literals; unknown keys are ignored (zod strips them by default).
`none` models the thrown `ZodError`. -/
def zodParsePayload (j : Json) : Option Cursor :=
  match j with
  | Json.obj _ =>
    match jsGet j vKey, jsGet j dKey with
    | some (Json.str v), some (Json.str d) =>
      if d = "forward".toList then some ⟨v, CursorDirection.forward⟩
      else if d = "backward".toList then some ⟨v, CursorDirection.backward⟩
      else none
    | _, _ => none
  | _ => none

/-- `Cursor.decode`: the same byte pipeline as the paginator, but the
parsed payload goes through `cursorPayloadSchema.parse`; any failure
(base64, JSON, zod) yields `null`. -/
def decode (encoded : List Char) : Option Cursor :=
  match jsonParse (utf8Decode (base64urlDecode encoded)) with
  | none => none
  | some j => zodParsePayload j

/-- `Cursor.encode`: `Buffer.from(JSON.stringify({v, d})).toString('base64url')`. -/
def encode (c : Cursor) : List Char :=
  base64urlEncode (utf8Encode (payloadChars c.value c.direction))

end Cursor

/-! ## The page builder -/

/-- `CursorPaginationOptions`: `limit`, optional encoded `cursor`,
optional `defaultDirection`. -/
structure CursorPaginationOptions where
  limit : Nat
  cursor : Option (List Char) := none
  defaultDirection : Option CursorDirection := none

/-- Pagination metadata of a `CursorPaginatedResult`. -/
structure PaginationInfo where
  nextCursor : Option (List Char)
  prevCursor : Option (List Char)
  hasNextPage : Bool
  hasPrevPage : Bool
  count : Nat
  deriving DecidableEq

/-- `CursorPaginatedResult`: the page data plus its pagination metadata. -/
structure CursorPaginatedResult (α : Type) where
  data : List α
  pagination : PaginationInfo

namespace CursorPaginator

/-- The `direction` local of `buildResult` (lines 311–314 of the
source):

`(cursor ? this.decode(cursor)?.direction : null) ?? options.defaultDirection ?? 'forward'`

`none` models both `null` and `undefined` on the way; `??` also fires
when the decoded `d` property is JSON `null`.  An empty cursor string is
falsy, so `decode` is not even called for it.  Note that the decoded
`d` is used as-is: it is *not* validated against the two direction
literals. -/
def effectiveDirection (opts : CursorPaginationOptions) : Json :=
  let fromCursor : Option Json :=
    match opts.cursor with
    | none => none
    | some c =>
      if c = [] then none
      else
        match decode c with
        | none => none
        | some r => r.direction
  let afterNullish : Option Json :=
    match fromCursor with
    | some Json.null => none
    | o => o
  match afterNullish with
  | some j => j
  | none =>
    match opts.defaultDirection with
    | some d => Json.str d.toChars
    | none => Json.str "forward".toList

/-- `CursorPaginator.buildResult` (identity cursor strategy), together
with the content of the caller's `entities` array after the call.

The frame component records the one mutation the body performs:
`entities.slice(0, limit)` copies, but when `hasMore` is false `items`
*is* the caller's array, and `items.reverse()` — used for the backward
presentation order — reverses an array in place.  Entities are objects
in every instantiation of the class (`keyof TEntity` indexing), so the
JavaScript truthiness tests `lastItem`/`firstItem` are modelled by
`Option.isSome` of the corresponding element. -/
def buildResultWithFrame {α : Type} (keyOf : α → List Char) (entities : List α)
    (opts : CursorPaginationOptions) : CursorPaginatedResult α × List α :=
  let direction := effectiveDirection opts
  let hasMore : Bool := decide (entities.length > opts.limit)
  let items := if hasMore then entities.take opts.limit else entities
  let isBackward : Bool := direction.isStr "backward".toList
  let data := if isBackward then items.reverse else items
  let entitiesAfter := if isBackward && !hasMore then entities.reverse else entities
  let firstItem := data.head?
  let lastItem := data.getLast?
  let isForward : Bool := direction.isStr "forward".toList
  let info : PaginationInfo :=
    if data.length > 0 then
      if isForward then
        let hasNextPage := hasMore
        let hasPrevPage := opts.cursor.isSome
        let nextCursor : Option (List Char) :=
          match hasNextPage, lastItem with
          | true, some item => some (encode (keyOf item) CursorDirection.forward)
          | _, _ => none
        let prevCursor : Option (List Char) :=
          match hasPrevPage, firstItem with
          | true, some item => some (encode (keyOf item) CursorDirection.backward)
          | _, _ => none
        ⟨nextCursor, prevCursor, hasNextPage, hasPrevPage, data.length⟩
      else
        let hasNextPage := opts.cursor.isSome
        let hasPrevPage := hasMore
        let nextCursor : Option (List Char) :=
          match hasNextPage, lastItem with
          | true, some item => some (encode (keyOf item) CursorDirection.forward)
          | _, _ => none
        let prevCursor : Option (List Char) :=
          match hasPrevPage, firstItem with
          | true, some item => some (encode (keyOf item) CursorDirection.backward)
          | _, _ => none
        ⟨nextCursor, prevCursor, hasNextPage, hasPrevPage, data.length⟩
    else ⟨none, none, false, false, data.length⟩
  (⟨data, info⟩, entitiesAfter)

/-- `CursorPaginator.buildResult`: the returned paginated result. -/
def buildResult {α : Type} (keyOf : α → List Char) (entities : List α)
    (opts : CursorPaginationOptions) : CursorPaginatedResult α :=
  (buildResultWithFrame keyOf entities opts).1

end CursorPaginator


/-! ## Round-trip lemmas for the byte pipeline -/

theorem b64Val_b64Char : ∀ n : Nat, n < 64 → b64Val (b64Char n) = some n := by decide

theorem sextetsToBytes_bytesToSextets : ∀ bs : List Nat, (∀ b ∈ bs, b < 256) →
    sextetsToBytes (bytesToSextets bs) = bs := by
  intro bs
  induction bs using bytesToSextets.induct with
  | case1 a b c rest ih =>
    intro h
    simp only [bytesToSextets, sextetsToBytes]
    have ha : a < 256 := h a (by simp)
    have hb : b < 256 := h b (by simp)
    have hc : c < 256 := h c (by simp)
    have h1 : a / 4 * 4 + ((a % 4) * 16 + b / 16) / 16 = a := by omega
    have h2 : ((a % 4) * 16 + b / 16) % 16 * 16 + ((b % 16) * 4 + c / 64) / 4 = b := by omega
    have h3 : ((b % 16) * 4 + c / 64) % 4 * 64 + c % 64 = c := by omega
    rw [h1, h2, h3, ih (fun x hx => h x (by simp [hx]))]
  | case2 a b =>
    intro h
    have ha : a < 256 := h a (by simp)
    have hb : b < 256 := h b (by simp)
    simp only [bytesToSextets, sextetsToBytes, List.cons.injEq, and_true]
    omega
  | case3 a =>
    intro h
    have ha : a < 256 := h a (by simp)
    simp only [bytesToSextets, sextetsToBytes, List.cons.injEq, and_true]
    omega
  | case4 => intro _; rfl

theorem char_valid_nat (c : Char) :
    c.toNat < 0xd800 ∨ (0xdfff < c.toNat ∧ c.toNat < 0x110000) := c.valid

theorem utf8EncodeChar_lt (c : Char) : ∀ b ∈ utf8EncodeChar c, b < 256 := by
  have hv := char_valid_nat c
  intro b hb
  simp only [utf8EncodeChar] at hb
  split_ifs at hb <;> simp only [List.mem_cons, List.not_mem_nil, or_false] at hb <;> omega

theorem utf8EncodeChar_ne_nil (c : Char) : utf8EncodeChar c ≠ [] := by
  simp only [utf8EncodeChar]
  split_ifs <;> simp

theorem utf8DecodeAux_encodeChar (c : Char) (rest : List Nat) (fuel : Nat) :
    utf8DecodeAux (fuel + 1) (utf8EncodeChar c ++ rest) = c :: utf8DecodeAux fuel rest := by
  have hv := char_valid_nat c
  have hofn : Char.ofNat c.toNat = c := Char.ofNat_toNat c
  set n := c.toNat with hn
  by_cases h1 : n < 0x80
  · simp only [utf8EncodeChar, ← hn, if_pos h1, List.cons_append, List.nil_append, utf8DecodeAux]
    rw [hofn]
  by_cases h2 : n < 0x800
  · simp only [utf8EncodeChar, ← hn, if_neg h1, if_pos h2, List.cons_append, List.nil_append,
      utf8DecodeAux]
    have c1 : ¬(0xC0 + n / 64 < 0x80) := by omega
    have c2 : ¬(0xC0 + n / 64 < 0xC2) := by omega
    have c3 : 0xC0 + n / 64 < 0xE0 := by omega
    rw [if_neg c1, if_neg c2, if_pos c3]
    have hcont : isCont (0x80 + n % 64) = true := by
      simp only [isCont, decide_eq_true_eq]; omega
    rw [hcont]
    simp only [if_true]
    have harg : (0xC0 + n / 64 - 0xC0) * 64 + (0x80 + n % 64 - 0x80) = n := by omega
    rw [harg, hofn]
  by_cases h3 : n < 0x10000
  · simp only [utf8EncodeChar, ← hn, if_neg h1, if_neg h2, if_pos h3, List.cons_append,
      List.nil_append, utf8DecodeAux]
    have c1 : ¬(0xE0 + n / 4096 < 0x80) := by omega
    have c2 : ¬(0xE0 + n / 4096 < 0xC2) := by omega
    have c3 : ¬(0xE0 + n / 4096 < 0xE0) := by omega
    have c4 : 0xE0 + n / 4096 < 0xF0 := by omega
    rw [if_neg c1, if_neg c2, if_neg c3, if_pos c4]
    have hlo : cont1Lo (0xE0 + n / 4096) ≤ 0x80 + n / 64 % 64 ∧
        0x80 + n / 64 % 64 ≤ cont1Hi (0xE0 + n / 4096) := by
      simp only [cont1Lo, cont1Hi]
      split_ifs <;> omega
    rw [if_pos hlo]
    have hcont : isCont (0x80 + n % 64) = true := by
      simp only [isCont, decide_eq_true_eq]; omega
    rw [hcont]
    simp only [if_true]
    have harg : (0xE0 + n / 4096 - 0xE0) * 4096 + (0x80 + n / 64 % 64 - 0x80) * 64 +
        (0x80 + n % 64 - 0x80) = n := by omega
    rw [harg, hofn]
  · simp only [utf8EncodeChar, ← hn, if_neg h1, if_neg h2, if_neg h3, List.cons_append,
      List.nil_append, utf8DecodeAux]
    have c1 : ¬(0xF0 + n / 262144 < 0x80) := by omega
    have c2 : ¬(0xF0 + n / 262144 < 0xC2) := by omega
    have c3 : ¬(0xF0 + n / 262144 < 0xE0) := by omega
    have c4 : ¬(0xF0 + n / 262144 < 0xF0) := by omega
    have c5 : 0xF0 + n / 262144 < 0xF5 := by omega
    rw [if_neg c1, if_neg c2, if_neg c3, if_neg c4, if_pos c5]
    have hlo : cont1Lo (0xF0 + n / 262144) ≤ 0x80 + n / 4096 % 64 ∧
        0x80 + n / 4096 % 64 ≤ cont1Hi (0xF0 + n / 262144) := by
      simp only [cont1Lo, cont1Hi]
      split_ifs <;> omega
    rw [if_pos hlo]
    have hcont2 : isCont (0x80 + n / 64 % 64) = true := by
      simp only [isCont, decide_eq_true_eq]; omega
    have hcont3 : isCont (0x80 + n % 64) = true := by
      simp only [isCont, decide_eq_true_eq]; omega
    rw [hcont2]
    simp only [if_true]
    rw [hcont3]
    simp only [if_true]
    have harg : (0xF0 + n / 262144 - 0xF0) * 262144 + (0x80 + n / 4096 % 64 - 0x80) * 4096 +
        (0x80 + n / 64 % 64 - 0x80) * 64 + (0x80 + n % 64 - 0x80) = n := by omega
    rw [harg, hofn]

theorem utf8DecodeAux_encode (s : List Char) : ∀ (fuel : Nat) (h : s.length ≤ fuel),
    utf8DecodeAux fuel (utf8Encode s) = s := by
  induction s with
  | nil =>
    intro fuel _
    cases fuel <;> rfl
  | cons c cs ih =>
    intro fuel h
    match fuel, h with
    | fuel + 1, h =>
      simp only [utf8Encode, List.map_cons, List.flatten_cons]
      rw [show ((cs.map utf8EncodeChar).flatten = utf8Encode cs) from rfl] 
      rw [utf8DecodeAux_encodeChar c (utf8Encode cs) fuel]
      rw [ih fuel (by simp only [List.length_cons] at h; omega)]

theorem length_le_utf8Encode_length (s : List Char) : s.length ≤ (utf8Encode s).length := by
  induction s with
  | nil => simp [utf8Encode]
  | cons c cs ih =>
    simp only [utf8Encode, List.map_cons, List.flatten_cons, List.length_append, List.length_cons]
    have : 1 ≤ (utf8EncodeChar c).length := by
      cases h : utf8EncodeChar c with
      | nil => exact absurd h (utf8EncodeChar_ne_nil c)
      | cons _ _ => simp
    have ih' : cs.length ≤ (utf8Encode cs).length := ih
    simp only [utf8Encode] at ih'
    omega

theorem utf8_roundtrip (s : List Char) : utf8Decode (utf8Encode s) = s :=
  utf8DecodeAux_encode s (utf8Encode s).length (length_le_utf8Encode_length s)

theorem utf8Encode_lt (s : List Char) : ∀ b ∈ utf8Encode s, b < 256 := by
  intro b hb
  simp only [utf8Encode, List.mem_flatten, List.mem_map] at hb
  obtain ⟨l, ⟨c, _, rfl⟩, hbl⟩ := hb
  exact utf8EncodeChar_lt c b hbl

theorem hexVal_hexDigitLc (x : Nat) (h : x < 16) : hexVal (hexDigitLc x) = some x := by
  interval_cases x <;> rfl

theorem escapeString_cons (c : Char) (cs : List Char) :
    escapeString (c :: cs) = escapeChar c ++ escapeString cs := by
  simp [escapeString]

theorem escapeString_length (v : List Char) : v.length ≤ (escapeString v).length := by
  induction v with
  | nil => simp [escapeString]
  | cons c cs ih =>
    rw [escapeString_cons]
    have h1 : 1 ≤ (escapeChar c).length := by
      simp only [escapeChar]
      split_ifs <;> simp
    simp only [List.length_append, List.length_cons]
    omega

theorem parseStringBodyAux_escaped (v : List Char) : ∀ (rest : List Char) (fuel : Nat),
    v.length + 1 ≤ fuel →
    parseStringBodyAux fuel (escapeString v ++ '"' :: rest) = some (v, rest) := by
  induction v with
  | nil =>
    intro rest fuel h
    match fuel, h with
    | fuel + 1, _ =>
      simp [escapeString, parseStringBodyAux]
  | cons c cs ih =>
    intro rest fuel h
    match fuel, h with
    | fuel + 1, h =>
      have hf : cs.length + 1 ≤ fuel := by
        simp only [List.length_cons] at h; omega
      have hofn := Char.ofNat_toNat c
      rw [escapeString_cons, List.append_assoc]
      by_cases h1 : c = '"'
      · subst h1
        simp [escapeChar, parseStringBodyAux, ih _ fuel hf]
      by_cases h2 : c = '\\'
      · subst h2
        simp [escapeChar, parseStringBodyAux, ih _ fuel hf]
      by_cases h3 : c.toNat = 8
      · have hc : c = Char.ofNat 8 := by rw [← hofn, h3]
        rw [hc]
        simp [escapeChar, parseStringBodyAux, ih _ fuel hf]
      by_cases h4 : c.toNat = 9
      · have hc : c = Char.ofNat 9 := by rw [← hofn, h4]
        rw [hc]
        simp [escapeChar, parseStringBodyAux, ih _ fuel hf]
      by_cases h5 : c.toNat = 10
      · have hc : c = Char.ofNat 10 := by rw [← hofn, h5]
        rw [hc]
        simp [escapeChar, parseStringBodyAux, ih _ fuel hf]
      by_cases h6 : c.toNat = 12
      · have hc : c = Char.ofNat 12 := by rw [← hofn, h6]
        rw [hc]
        simp [escapeChar, parseStringBodyAux, ih _ fuel hf]
      by_cases h7 : c.toNat = 13
      · have hc : c = Char.ofNat 13 := by rw [← hofn, h7]
        rw [hc]
        simp [escapeChar, parseStringBodyAux, ih _ fuel hf]
      by_cases h8 : c.toNat < 32
      · simp only [escapeChar, if_neg h1, if_neg h2, if_neg h3, if_neg h4, if_neg h5, if_neg h6,
          if_neg h7, if_pos h8, List.cons_append, List.nil_append, parseStringBodyAux]
        rw [hexVal_hexDigitLc (c.toNat / 16) (by omega), hexVal_hexDigitLc (c.toNat % 16) (by omega)]
        have h0 : hexVal '0' = some 0 := rfl
        have harg : ((0 * 16 + 0) * 16 + c.toNat / 16) * 16 + c.toNat % 16 = c.toNat := by omega
        have harg2 : ((0 * 16 + 0) * 16 + c.toNat / 16) * 16 + c.toNat % 16 = c.toNat := by omega
        simp [h0, harg2, ih _ fuel hf, hofn, (by omega : c.toNat < 55296)]
        have harg3 : c.toNat / 16 * 16 + c.toNat % 16 = c.toNat := by omega
        rw [harg3, if_pos (Or.inl (by omega : c.toNat < 55296)), hofn]
      · simp only [escapeChar, if_neg h1, if_neg h2, if_neg h3, if_neg h4, if_neg h5, if_neg h6,
          if_neg h7, if_neg h8, List.cons_append, List.nil_append, parseStringBodyAux]
        simp only [if_neg h1, if_neg h2, if_neg h8, ih _ fuel hf]
        rfl


/-! ## Parsing the serialized payload -/

theorem parseStringBody_escaped (v tail : List Char) :
    parseStringBody (escapeString v ++ '"' :: tail) = some (v, tail) := by
  apply parseStringBodyAux_escaped
  have := escapeString_length v
  simp only [List.length_append, List.length_cons]
  omega

theorem parseStringBody_vkey (X : List Char) :
    parseStringBody ('v' :: '"' :: X) = some (['v'], X) := by
  have h := parseStringBody_escaped ['v'] X
  simpa [escapeString, escapeChar] using h

theorem parseStringBody_dkey (X : List Char) :
    parseStringBody ('d' :: '"' :: X) = some (['d'], X) := by
  have h := parseStringBody_escaped ['d'] X
  simpa [escapeString, escapeChar] using h

theorem parseValue_quote (F : Nat) (v tail : List Char) :
    parseValue (F + 1) ('"' :: (escapeString v ++ '"' :: tail)) = some (Json.str v, tail) := by
  have hq1 : ¬(('"' : Char) = lbrace) := by decide
  have hq2 : ¬(('"' : Char) = '[') := by decide
  simp [parseValue, skipWs, isJsonWs, parseStringBody_escaped, hq1, hq2]

set_option maxHeartbeats 1000000 in
theorem parseMembersF_payload (F fm : Nat) (v dc : List Char) (h2 : 2 ≤ fm) :
    parseMembersF (parseValue (F + 1)) fm
      ('"' :: 'v' :: '"' :: ':' :: '"' :: (escapeString v ++
        ('"' :: ',' :: '"' :: 'd' :: '"' :: ':' :: '"' ::
          (escapeString dc ++ ['"', rbrace])))) =
      some ([(vKey, Json.str v), (dKey, Json.str dc)], []) := by
  obtain ⟨m, rfl⟩ : ∃ m, fm = m + 2 := ⟨fm - 2, by omega⟩
  have hrb1 : ¬((rbrace : Char) = '"') := by decide
  have hrb2 : ¬(isJsonWs rbrace = true) := by decide
  have hrb3 : ¬((rbrace : Char) = ',') := by decide
  have hrb4 : ¬((rbrace : Char) = ' ' ∨ rbrace = '\t' ∨ rbrace = '\n' ∨ rbrace = '\x0d') := by
    decide
  simp [parseMembersF, skipWs, isJsonWs, parseStringBody_vkey, parseStringBody_dkey,
    parseValue_quote, vKey, dKey, hrb1, hrb2, hrb3, hrb4]

theorem parseValue_payloadChars (F : Nat) (v : List Char) (d : CursorDirection) :
    parseValue (F + 2)
      (lbrace :: '"' :: 'v' :: '"' :: ':' :: '"' :: (escapeString v ++
        ('"' :: ',' :: '"' :: 'd' :: '"' :: ':' :: '"' ::
          (escapeString d.toChars ++ ['"', rbrace])))) =
      some (Json.obj [(vKey, Json.str v), (dKey, Json.str d.toChars)], []) := by
  show Option.map (fun p => (Json.obj p.1, p.2))
      (parseMembersF (parseValue (F + 1))
        ('"' :: 'v' :: '"' :: ':' :: '"' :: (escapeString v ++
          ('"' :: ',' :: '"' :: 'd' :: '"' :: ':' :: '"' ::
            (escapeString d.toChars ++ ['"', rbrace])))).length
        ('"' :: 'v' :: '"' :: ':' :: '"' :: (escapeString v ++
          ('"' :: ',' :: '"' :: 'd' :: '"' :: ':' :: '"' ::
            (escapeString d.toChars ++ ['"', rbrace]))))) =
    some (Json.obj [(vKey, Json.str v), (dKey, Json.str d.toChars)], [])
  rw [parseMembersF_payload F _ v d.toChars (by simp only [List.length_cons]; omega)]
  rfl

theorem payloadChars_flatten (v : List Char) (d : CursorDirection) :
    payloadChars v d =
      lbrace :: '"' :: 'v' :: '"' :: ':' :: '"' :: (escapeString v ++
        ('"' :: ',' :: '"' :: 'd' :: '"' :: ':' :: '"' ::
          (escapeString d.toChars ++ ['"', rbrace]))) := by
  simp [payloadChars, jsonQuote]

theorem jsonParse_payload (v : List Char) (d : CursorDirection) :
    jsonParse (payloadChars v d) =
      some (Json.obj [(vKey, Json.str v), (dKey, Json.str d.toChars)]) := by
  unfold jsonParse
  rw [payloadChars_flatten]
  have hlen : (lbrace :: '"' :: 'v' :: '"' :: ':' :: '"' :: (escapeString v ++
      ('"' :: ',' :: '"' :: 'd' :: '"' :: ':' :: '"' ::
        (escapeString d.toChars ++ ['"', rbrace])))).length + 1 =
      ((escapeString v).length + (escapeString d.toChars).length + 14) + 2 := by
    simp only [List.length_cons, List.length_append, List.length_nil]
    omega
  rw [hlen, parseValue_payloadChars]
  rfl


/-! ## Codec round-trips -/

theorem bytesToSextets_lt : ∀ bs : List Nat, (∀ b ∈ bs, b < 256) →
    ∀ s ∈ bytesToSextets bs, s < 64 := by
  intro bs
  induction bs using bytesToSextets.induct with
  | case1 a b c rest ih =>
    intro h s hs
    have ha : a < 256 := h a (by simp)
    have hb : b < 256 := h b (by simp)
    have hc : c < 256 := h c (by simp)
    simp only [bytesToSextets, List.mem_cons] at hs
    rcases hs with rfl | rfl | rfl | rfl | hs
    · omega
    · omega
    · omega
    · omega
    · exact ih (fun x hx => h x (by simp [hx])) s hs
  | case2 a b =>
    intro h s hs
    have ha : a < 256 := h a (by simp)
    have hb : b < 256 := h b (by simp)
    simp only [bytesToSextets, List.mem_cons, List.not_mem_nil, or_false] at hs
    rcases hs with rfl | rfl | rfl <;> omega
  | case3 a =>
    intro h s hs
    have ha : a < 256 := h a (by simp)
    simp only [bytesToSextets, List.mem_cons, List.not_mem_nil, or_false] at hs
    rcases hs with rfl | rfl <;> omega
  | case4 =>
    intro _ s hs
    simp [bytesToSextets] at hs

theorem filterMap_b64Val_map_b64Char : ∀ l : List Nat, (∀ s ∈ l, s < 64) →
    (l.map b64Char).filterMap b64Val = l := by
  intro l
  induction l with
  | nil => intro _; rfl
  | cons x xs ih =>
    intro h
    simp only [List.map_cons, List.filterMap_cons, b64Val_b64Char x (h x (by simp))]
    rw [ih (fun s hs => h s (by simp [hs]))]

theorem base64url_roundtrip (bytes : List Nat) (h : ∀ b ∈ bytes, b < 256) :
    base64urlDecode (base64urlEncode bytes) = bytes := by
  unfold base64urlDecode base64urlEncode
  rw [filterMap_b64Val_map_b64Char _ (bytesToSextets_lt bytes h)]
  exact sextetsToBytes_bytesToSextets bytes h

theorem bytePipeline_roundtrip (l : List Char) :
    utf8Decode (base64urlDecode (base64urlEncode (utf8Encode l))) = l := by
  rw [base64url_roundtrip _ (utf8Encode_lt l), utf8_roundtrip]

theorem decode_pipeline (v : List Char) (d : CursorDirection) :
    jsonParse (utf8Decode (base64urlDecode (CursorPaginator.encode v d))) =
      some (Json.obj [(vKey, Json.str v), (dKey, Json.str d.toChars)]) := by
  unfold CursorPaginator.encode
  rw [bytePipeline_roundtrip, jsonParse_payload]

theorem CursorPaginator_decode_encode (v : List Char) (d : CursorDirection) :
    CursorPaginator.decode (CursorPaginator.encode v d) =
      some ⟨some (Json.str v), some (Json.str d.toChars)⟩ := by
  unfold CursorPaginator.decode
  rw [decode_pipeline]
  rfl

theorem Cursor_decode_encode (c : Cursor) : Cursor.decode (Cursor.encode c) = some c := by
  obtain ⟨v, d⟩ := c
  unfold Cursor.decode Cursor.encode
  have h : base64urlEncode (utf8Encode (payloadChars v d)) = CursorPaginator.encode v d := rfl
  rw [h, decode_pipeline]
  cases d <;> rfl


/-! ## Shape lemmas for the page builder -/

theorem bytesToSextets_ne_nil (a : Nat) (rest : List Nat) : bytesToSextets (a :: rest) ≠ [] := by
  rcases rest with _ | ⟨b, _ | ⟨c, r⟩⟩ <;> simp [bytesToSextets]

theorem encode_ne_nil (v : List Char) (d : CursorDirection) :
    CursorPaginator.encode v d ≠ [] := by
  unfold CursorPaginator.encode
  rw [payloadChars_flatten]
  have h1 : utf8Encode (lbrace :: '"' :: 'v' :: '"' :: ':' :: '"' :: (escapeString v ++
      ('"' :: ',' :: '"' :: 'd' :: '"' :: ':' :: '"' ::
        (escapeString d.toChars ++ ['"', rbrace])))) =
      123 :: utf8Encode ('"' :: 'v' :: '"' :: ':' :: '"' :: (escapeString v ++
      ('"' :: ',' :: '"' :: 'd' :: '"' :: ':' :: '"' ::
        (escapeString d.toChars ++ ['"', rbrace])))) := rfl
  rw [h1]
  unfold base64urlEncode
  intro hc
  rw [List.map_eq_nil_iff] at hc
  exact bytesToSextets_ne_nil _ _ hc

theorem effectiveDirection_encode (opts : CursorPaginationOptions) (v : List Char)
    (d : CursorDirection) (h : opts.cursor = some (CursorPaginator.encode v d)) :
    CursorPaginator.effectiveDirection opts = Json.str d.toChars := by
  simp [CursorPaginator.effectiveDirection, h, encode_ne_nil v d, CursorPaginator_decode_encode]

theorem effectiveDirection_no_cursor (opts : CursorPaginationOptions)
    (h : opts.cursor = none ∨ opts.cursor = some []) :
    CursorPaginator.effectiveDirection opts =
      (match opts.defaultDirection with
       | some d => Json.str d.toChars
       | none => Json.str "forward".toList) := by
  obtain ⟨lim, cur, dd⟩ := opts
  rcases h with h | h <;> simp only at h <;> subst h <;>
    cases dd <;> simp [CursorPaginator.effectiveDirection]

theorem buildResult_nil {α : Type} (keyOf : α → List Char) (opts : CursorPaginationOptions) :
    CursorPaginator.buildResult keyOf ([] : List α) opts =
      ⟨[], ⟨none, none, false, false, 0⟩⟩ := by
  simp [CursorPaginator.buildResult, CursorPaginator.buildResultWithFrame]


theorem buildResultWithFrame_snd {α : Type} (keyOf : α → List Char) (entities : List α)
    (opts : CursorPaginationOptions) :
    (CursorPaginator.buildResultWithFrame keyOf entities opts).2 =
      if ((CursorPaginator.effectiveDirection opts).isStr "backward".toList
            && !decide (entities.length > opts.limit)) = true
      then entities.reverse else entities := by
  unfold CursorPaginator.buildResultWithFrame
  simp only []

theorem buildResult_data_eq {α : Type} (keyOf : α → List Char) (entities : List α)
    (opts : CursorPaginationOptions) :
    (CursorPaginator.buildResult keyOf entities opts).data =
      if (CursorPaginator.effectiveDirection opts).isStr "backward".toList = true then
        (if entities.length > opts.limit then entities.take opts.limit else entities).reverse
      else if entities.length > opts.limit then entities.take opts.limit else entities := by
  unfold CursorPaginator.buildResult CursorPaginator.buildResultWithFrame
  simp only [decide_eq_true_eq]

theorem buildResult_pagination_eq2 {α : Type} (keyOf : α → List Char) (entities : List α)
    (opts : CursorPaginationOptions) :
    (CursorPaginator.buildResult keyOf entities opts).pagination =
      (let data := (CursorPaginator.buildResult keyOf entities opts).data
       if data.length > 0 then
         if (CursorPaginator.effectiveDirection opts).isStr "forward".toList = true then
           ⟨(match decide (entities.length > opts.limit), data.getLast? with
              | true, some item => some (CursorPaginator.encode (keyOf item) CursorDirection.forward)
              | _, _ => none),
            (match opts.cursor.isSome, data.head? with
              | true, some item => some (CursorPaginator.encode (keyOf item) CursorDirection.backward)
              | _, _ => none),
            decide (entities.length > opts.limit), opts.cursor.isSome, data.length⟩
         else
           ⟨(match opts.cursor.isSome, data.getLast? with
              | true, some item => some (CursorPaginator.encode (keyOf item) CursorDirection.forward)
              | _, _ => none),
            (match decide (entities.length > opts.limit), data.head? with
              | true, some item => some (CursorPaginator.encode (keyOf item) CursorDirection.backward)
              | _, _ => none),
            opts.cursor.isSome, decide (entities.length > opts.limit), data.length⟩
       else ⟨none, none, false, false, data.length⟩) := by
  unfold CursorPaginator.buildResult CursorPaginator.buildResultWithFrame
  simp only []
  try rfl


/-! ## The claims -/

/-- C10: internal consistency of every result: for every entities list and
options, the page returned by `buildResult` satisfies `count = data.length`,
`nextCursor` is non-null iff `hasNextPage`, and `prevCursor` is non-null iff
`hasPrevPage`. -/
theorem C10_internal_consistency {α : Type} (keyOf : α → List Char) (entities : List α)
    (opts : CursorPaginationOptions) :
    (CursorPaginator.buildResult keyOf entities opts).pagination.count =
      (CursorPaginator.buildResult keyOf entities opts).data.length ∧
    ((CursorPaginator.buildResult keyOf entities opts).pagination.nextCursor ≠ none ↔
      (CursorPaginator.buildResult keyOf entities opts).pagination.hasNextPage = true) ∧
    ((CursorPaginator.buildResult keyOf entities opts).pagination.prevCursor ≠ none ↔
      (CursorPaginator.buildResult keyOf entities opts).pagination.hasPrevPage = true) := by
  rw [buildResult_pagination_eq2]
  simp only []
  by_cases h0 : (CursorPaginator.buildResult keyOf entities opts).data.length > 0
  · have hne : (CursorPaginator.buildResult keyOf entities opts).data ≠ [] :=
      List.length_pos_iff_ne_nil.mp h0
    obtain ⟨x, hx⟩ := Option.isSome_iff_exists.mp (List.getLast?_isSome.mpr hne)
    obtain ⟨y, hy⟩ := Option.isSome_iff_exists.mp (List.head?_isSome.mpr hne)
    rw [if_pos h0]
    by_cases hf : (CursorPaginator.effectiveDirection opts).isStr "forward".toList = true
    · rw [if_pos hf]
      refine ⟨rfl, ?_, ?_⟩
      · cases hm : decide (entities.length > opts.limit) <;> simp [hx]
      · cases hc : opts.cursor.isSome <;> simp [hy]
    · rw [if_neg hf]
      refine ⟨rfl, ?_, ?_⟩
      · cases hc : opts.cursor.isSome <;> simp [hx]
      · cases hm : decide (entities.length > opts.limit) <;> simp [hy]
  · rw [if_neg h0]
    simp

/-- C3: flag and cursor computation by effective direction: for every
non-empty output batch, a forward effective direction gives
`hasNextPage = hasMore` and `hasPrevPage = (cursor present)`, a backward one
swaps them; whenever `hasNextPage` holds, `nextCursor` encodes the key of the
last output item with direction forward, and whenever `hasPrevPage` holds,
`prevCursor` encodes the key of the first output item with direction
backward. -/
theorem C3_flags_and_cursors {α : Type} (keyOf : α → List Char) (entities : List α)
    (opts : CursorPaginationOptions)
    (hne : (CursorPaginator.buildResult keyOf entities opts).data ≠ []) :
    (CursorPaginator.effectiveDirection opts = Json.str "forward".toList →
      (CursorPaginator.buildResult keyOf entities opts).pagination.hasNextPage =
        decide (entities.length > opts.limit) ∧
      (CursorPaginator.buildResult keyOf entities opts).pagination.hasPrevPage =
        opts.cursor.isSome) ∧
    (CursorPaginator.effectiveDirection opts = Json.str "backward".toList →
      (CursorPaginator.buildResult keyOf entities opts).pagination.hasNextPage =
        opts.cursor.isSome ∧
      (CursorPaginator.buildResult keyOf entities opts).pagination.hasPrevPage =
        decide (entities.length > opts.limit)) ∧
    ((CursorPaginator.buildResult keyOf entities opts).pagination.hasNextPage = true →
      (CursorPaginator.buildResult keyOf entities opts).pagination.nextCursor =
        ((CursorPaginator.buildResult keyOf entities opts).data.getLast?).map
          (fun i => CursorPaginator.encode (keyOf i) CursorDirection.forward)) ∧
    ((CursorPaginator.buildResult keyOf entities opts).pagination.hasPrevPage = true →
      (CursorPaginator.buildResult keyOf entities opts).pagination.prevCursor =
        ((CursorPaginator.buildResult keyOf entities opts).data.head?).map
          (fun i => CursorPaginator.encode (keyOf i) CursorDirection.backward)) := by
  have h0 : (CursorPaginator.buildResult keyOf entities opts).data.length > 0 :=
    List.length_pos_iff_ne_nil.mpr hne
  obtain ⟨x, hx⟩ := Option.isSome_iff_exists.mp (List.getLast?_isSome.mpr hne)
  obtain ⟨y, hy⟩ := Option.isSome_iff_exists.mp (List.head?_isSome.mpr hne)
  rw [buildResult_pagination_eq2]
  simp only []
  rw [if_pos h0]
  by_cases hf : (CursorPaginator.effectiveDirection opts).isStr "forward".toList = true
  · rw [if_pos hf]
    refine ⟨fun _ => ⟨rfl, rfl⟩, fun hb => ?_, fun hn => ?_, fun hp => ?_⟩
    · rw [hb] at hf
      simp [Json.isStr] at hf
    · simp only at hn
      simp [hn, hx]
    · simp only at hp
      simp [hp, hy]
  · rw [if_neg hf]
    refine ⟨fun hfwd => ?_, fun _ => ⟨rfl, rfl⟩, fun hn => ?_, fun hp => ?_⟩
    · rw [hfwd] at hf
      simp [Json.isStr] at hf
    · simp only at hn
      simp [hn, hx]
    · simp only at hp
      simp [hp, hy]

/-- C5: backward reversal: when the effective direction is backward the
returned data is the reverse of the trimmed input (the first `limit` items of
`entities`); when it is forward the returned data is the trimmed input
unchanged. -/
theorem C5_backward_reversal {α : Type} (keyOf : α → List Char) (entities : List α)
    (opts : CursorPaginationOptions) :
    (CursorPaginator.effectiveDirection opts = Json.str "backward".toList →
      (CursorPaginator.buildResult keyOf entities opts).data =
        (entities.take opts.limit).reverse) ∧
    (CursorPaginator.effectiveDirection opts = Json.str "forward".toList →
      (CursorPaginator.buildResult keyOf entities opts).data = entities.take opts.limit) := by
  have htake : (if entities.length > opts.limit then entities.take opts.limit else entities) =
      entities.take opts.limit := by
    split_ifs with h
    · rfl
    · exact (List.take_of_length_le (by omega)).symm
  constructor
  · intro hb
    rw [buildResult_data_eq, if_pos (by rw [hb]; simp [Json.isStr]), htake]
  · intro hf
    rw [buildResult_data_eq, if_neg (by rw [hf]; simp [Json.isStr]), htake]

/-- C9: empty-input result: for every options, `buildResult` on the empty
entities list returns empty data, count 0, both cursors absent and both flags
false. -/
theorem C9_empty_input {α : Type} (keyOf : α → List Char) (opts : CursorPaginationOptions) :
    CursorPaginator.buildResult keyOf ([] : List α) opts =
      ⟨[], ⟨none, none, false, false, 0⟩⟩ := by
  simp [CursorPaginator.buildResult, CursorPaginator.buildResultWithFrame]

/-- C4 (amended): windowing for limits in the data model's range
(`limit ≥ 1`): if `entities.length > limit` the returned data has exactly
`limit` items (the prefix of length `limit`, up to the backward reversal) and
the over-fetch flag (`hasNextPage` when the effective direction is forward,
`hasPrevPage` otherwise) is true; if `entities.length ≤ limit` then
`data.length = entities.length` and that flag is false.  The original claim,
quantified over every limit, fails at `limit = 0` (see the counterexample):
there the trimmed batch is empty and the builder's empty-data guard forces
both flags false. -/
theorem C4_windowing_amended {α : Type} (keyOf : α → List Char) (entities : List α)
    (opts : CursorPaginationOptions) (hlim : 1 ≤ opts.limit) :
    (entities.length > opts.limit →
      (CursorPaginator.buildResult keyOf entities opts).data.length = opts.limit ∧
      ((CursorPaginator.buildResult keyOf entities opts).data = entities.take opts.limit ∨
        (CursorPaginator.buildResult keyOf entities opts).data =
          (entities.take opts.limit).reverse) ∧
      (if (CursorPaginator.effectiveDirection opts).isStr "forward".toList = true then
        (CursorPaginator.buildResult keyOf entities opts).pagination.hasNextPage
       else (CursorPaginator.buildResult keyOf entities opts).pagination.hasPrevPage) = true) ∧
    (entities.length ≤ opts.limit →
      (CursorPaginator.buildResult keyOf entities opts).data.length = entities.length ∧
      (if (CursorPaginator.effectiveDirection opts).isStr "forward".toList = true then
        (CursorPaginator.buildResult keyOf entities opts).pagination.hasNextPage
       else (CursorPaginator.buildResult keyOf entities opts).pagination.hasPrevPage) = false) := by
  constructor
  · intro hm
    have hdata : (CursorPaginator.buildResult keyOf entities opts).data = entities.take opts.limit ∨
        (CursorPaginator.buildResult keyOf entities opts).data =
          (entities.take opts.limit).reverse := by
      rw [buildResult_data_eq, if_pos hm]
      by_cases hb : (Json.isStr (CursorPaginator.effectiveDirection opts) "backward".toList) = true
      · rw [if_pos hb]; right; rfl
      · rw [if_neg hb]; left; rfl
    have hlen : (CursorPaginator.buildResult keyOf entities opts).data.length = opts.limit := by
      rcases hdata with h | h <;> rw [h] <;> simp [List.length_take] <;> omega
    refine ⟨hlen, hdata, ?_⟩
    have h0 : (CursorPaginator.buildResult keyOf entities opts).data.length > 0 := by omega
    rw [buildResult_pagination_eq2]
    simp only []
    rw [if_pos h0]
    by_cases hf : (CursorPaginator.effectiveDirection opts).isStr "forward".toList = true
    · rw [if_pos hf, if_pos hf]
      simp [hm]
    · rw [if_neg hf, if_neg hf]
      simp [hm]
  · intro hle
    have hnm : ¬(entities.length > opts.limit) := by omega
    have hdata : (CursorPaginator.buildResult keyOf entities opts).data.length = entities.length := by
      rw [buildResult_data_eq, if_neg hnm]
      by_cases hb : (Json.isStr (CursorPaginator.effectiveDirection opts) "backward".toList) = true
      · rw [if_pos hb]; simp
      · rw [if_neg hb]
    refine ⟨hdata, ?_⟩
    rw [buildResult_pagination_eq2]
    simp only []
    by_cases h0 : (CursorPaginator.buildResult keyOf entities opts).data.length > 0
    · rw [if_pos h0]
      by_cases hf : (CursorPaginator.effectiveDirection opts).isStr "forward".toList = true
      · rw [if_pos hf, if_pos hf]
        simp [hnm]
      · rw [if_neg hf, if_neg hf]
        simp [hnm]
    · rw [if_neg h0]
      split_ifs <;> rfl

/-- C1: cursor codec round-trip: for every string value `v` and every
direction `d`, decoding the token produced by `encode(v, d)` succeeds and
yields `v` and `d` — exactly so for the zod-validated `Cursor` value object,
and as the raw JSON payload fields for the unvalidated `CursorPaginator`
decode with the identity string serialization strategy. -/
theorem C1_cursor_roundtrip (v : List Char) (d : CursorDirection) :
    Cursor.decode (Cursor.encode ⟨v, d⟩) = some ⟨v, d⟩ ∧
    CursorPaginator.decode (CursorPaginator.encode v d) =
      some ⟨some (Json.str v), some (Json.str d.toChars)⟩ :=
  ⟨Cursor_decode_encode ⟨v, d⟩, CursorPaginator_decode_encode v d⟩

/-- C8: decode totality: for every input string both decoders return a
value — a cursor or the invalid result (`none`) — and never raise; in
particular the empty string and the spec's non-base64 example decode to the
invalid result. -/
theorem C8_decode_totality :
    (∀ s : List Char, CursorPaginator.decode s = none ∨
      ∃ r, CursorPaginator.decode s = some r) ∧
    (∀ s : List Char, Cursor.decode s = none ∨ ∃ c, Cursor.decode s = some c) ∧
    CursorPaginator.decode [] = none ∧ Cursor.decode [] = none ∧
    CursorPaginator.decode "not-valid-base64!!".toList = none ∧
    Cursor.decode "not-valid-base64!!".toList = none := by
  refine ⟨fun s => ?_, fun s => ?_, rfl, rfl, rfl, rfl⟩
  · cases h : CursorPaginator.decode s with
    | none => exact Or.inl rfl
    | some r => exact Or.inr ⟨r, rfl⟩
  · cases h : Cursor.decode s with
    | none => exact Or.inl rfl
    | some c => exact Or.inr ⟨c, rfl⟩

/-- C2 counterexample: the token `"e30"` (base64url of the payload holding
an empty JSON object) parses as JSON and is missing both `v` and `d`, yet
`CursorPaginator.decode` returns a (degenerate) decoded cursor with both
fields `undefined` instead of the invalid result `null`. -/
theorem C2_counterexample :
    jsonParse (utf8Decode (base64urlDecode ['e', '3', '0'])) = some (Json.obj []) ∧
    jsGet (Json.obj []) vKey = none ∧
    CursorPaginator.decode ['e', '3', '0'] = some ⟨none, none⟩ ∧
    CursorPaginator.decode ['e', '3', '0'] ≠ none := by
  refine ⟨rfl, rfl, rfl, fun h => ?_⟩
  rw [show CursorPaginator.decode ['e', '3', '0'] = some ⟨none, none⟩ from rfl] at h
  exact Option.noConfusion h

/-- C2 (amended): field validation holds for the zod-validated value
object only: for every token whose base64url payload parses as JSON but is
missing `v`, missing `d`, or carries a `d` that is neither direction literal,
`Cursor.decode` returns the invalid result; `CursorPaginator.decode` performs
no such validation (see the counterexample). -/
theorem C2_amended_vo_validation (tok : List Char) (j : Json)
    (hj : jsonParse (utf8Decode (base64urlDecode tok)) = some j)
    (hbad : jsGet j vKey = none ∨ jsGet j dKey = none ∨
      (∃ jd, jsGet j dKey = some jd ∧ jd ≠ Json.str "forward".toList ∧
        jd ≠ Json.str "backward".toList)) :
    Cursor.decode tok = none := by
  unfold Cursor.decode
  rw [hj]
  show Cursor.zodParsePayload j = none
  unfold Cursor.zodParsePayload
  cases j with
  | null => rfl
  | bool b => rfl
  | num n => rfl
  | str s => rfl
  | arr a => rfl
  | obj fields =>
    rcases hbad with hv | hd | ⟨jd, hjd, hne1, hne2⟩
    · rw [hv]
    · rw [hd]
      rcases hvv : jsGet (Json.obj fields) vKey with _ | jv
      · rfl
      · cases jv <;> rfl
    · rw [hjd]
      rcases hvv : jsGet (Json.obj fields) vKey with _ | jv
      · rfl
      · cases jv with
        | str s =>
          cases jd with
          | str t =>
            have t1 : ¬(t = "forward".toList) := fun h => hne1 (by rw [h])
            have t2 : ¬(t = "backward".toList) := fun h => hne2 (by rw [h])
            simp only [if_neg t1, if_neg t2]
          | null => rfl
          | bool b => rfl
          | num n => rfl
          | arr a => rfl
          | obj o => rfl
        | null => rfl
        | bool b => rfl
        | num n => rfl
        | arr a => rfl
        | obj o => rfl

/-- Helper for C7: whenever the cursor string is non-empty and its decoded
`d` property is present and not JSON null, `buildResult` uses that raw value
as the direction, however ill-formed. -/
theorem effectiveDirection_raw (opts : CursorPaginationOptions) (c : List Char)
    (r : CursorPaginator.DecodedCursor) (j : Json) (hc : opts.cursor = some c) (hne : c ≠ [])
    (hdec : CursorPaginator.decode c = some r) (hdir : r.direction = some j)
    (hnn : j ≠ Json.null) :
    CursorPaginator.effectiveDirection opts = j := by
  simp only [CursorPaginator.effectiveDirection, hc, hne, hdec, hdir, if_neg hne]
  cases j with
  | null => exact absurd rfl hnn
  | bool b => rfl
  | num n => rfl
  | str s => rfl
  | arr a => rfl
  | obj o => rfl

/-- Helper for C7: when the decode fails, or the decoded `d` property is
absent or JSON null, the configured default (or forward) is used. -/
theorem effectiveDirection_invalid (opts : CursorPaginationOptions) (c : List Char)
    (hc : opts.cursor = some c) (hne : c ≠ [])
    (hbad : CursorPaginator.decode c = none ∨
      (∃ r, CursorPaginator.decode c = some r ∧
        (r.direction = none ∨ r.direction = some Json.null))) :
    CursorPaginator.effectiveDirection opts =
      (match opts.defaultDirection with
       | some d => Json.str d.toChars
       | none => Json.str "forward".toList) := by
  obtain ⟨lim, cur, dd⟩ := opts
  simp only at hc
  subst hc
  rcases hbad with hdec | ⟨r, hdec, hdir⟩
  · cases dd <;> simp [CursorPaginator.effectiveDirection, hne, hdec]
  · rcases hdir with hdir | hdir <;>
      cases dd <;> simp [CursorPaginator.effectiveDirection, hne, hdec, hdir]

/-- C7 counterexample: a token whose payload is the JSON record with
`v = "x"` and `d = "sideways"` is invalid per the codec's validation rules
(`Cursor.decode` rejects it), yet the direction `buildResult` uses is the raw
string `"sideways"`, not the configured default `forward`. -/
theorem C7_counterexample :
    Cursor.decode (base64urlEncode (utf8Encode
      (lbrace :: "\"v\":\"x\",\"d\":\"sideways\"".toList ++ [rbrace]))) = none ∧
    CursorPaginator.effectiveDirection
      ⟨5, some (base64urlEncode (utf8Encode
        (lbrace :: "\"v\":\"x\",\"d\":\"sideways\"".toList ++ [rbrace]))),
        some CursorDirection.forward⟩ = Json.str "sideways".toList ∧
    Json.str "sideways".toList ≠ Json.str "forward".toList := by
  refine ⟨rfl, rfl, by simp⟩

/-- C7 (amended): effective-direction resolution as the code implements
it: a well-formed token's direction is used; an absent or empty cursor falls
back to `defaultDirection` (forward when unset); when decode fails or the
decoded `d` is absent or JSON null the same fallback applies; but a present
non-null `d` is used raw, without validation against the two direction
literals. -/
theorem C7_amended_direction_resolution :
    (∀ (opts : CursorPaginationOptions) (v : List Char) (d : CursorDirection),
      opts.cursor = some (CursorPaginator.encode v d) →
      CursorPaginator.effectiveDirection opts = Json.str d.toChars) ∧
    (∀ opts : CursorPaginationOptions, (opts.cursor = none ∨ opts.cursor = some []) →
      CursorPaginator.effectiveDirection opts =
        (match opts.defaultDirection with
         | some d => Json.str d.toChars
         | none => Json.str "forward".toList)) ∧
    (∀ (opts : CursorPaginationOptions) (c : List Char) (r : CursorPaginator.DecodedCursor)
        (j : Json), opts.cursor = some c → c ≠ [] → CursorPaginator.decode c = some r →
      r.direction = some j → j ≠ Json.null → CursorPaginator.effectiveDirection opts = j) ∧
    (∀ (opts : CursorPaginationOptions) (c : List Char), opts.cursor = some c → c ≠ [] →
      (CursorPaginator.decode c = none ∨
        (∃ r, CursorPaginator.decode c = some r ∧
          (r.direction = none ∨ r.direction = some Json.null))) →
      CursorPaginator.effectiveDirection opts =
        (match opts.defaultDirection with
         | some d => Json.str d.toChars
         | none => Json.str "forward".toList)) :=
  ⟨fun opts v d h => effectiveDirection_encode opts v d h,
   fun opts h => effectiveDirection_no_cursor opts h,
   fun opts c r j hc hne hdec hdir hnn => effectiveDirection_raw opts c r j hc hne hdec hdir hnn,
   fun opts c hc hne hbad => effectiveDirection_invalid opts c hc hne hbad⟩

/-- C6: evaluation of the builder at the failing input: with a backward
cursor and no over-fetch (`entities.length ≤ limit`), `items` aliases the
caller's array and `items.reverse()` reverses it in place, so after the call
the caller's `entities` holds the reversed sequence — `buildResult` is not
pure with respect to its input. -/
theorem C6_frame_mutation_eval :
    (CursorPaginator.buildResultWithFrame (fun s => s) [['a'], ['b']]
      ⟨2, some (CursorPaginator.encode ['x'] CursorDirection.backward), none⟩).2 =
      [['b'], ['a']] ∧
    ([['b'], ['a']] : List (List Char)) ≠ [['a'], ['b']] := by
  refine ⟨rfl, by decide⟩

/-- Witness for C2 (amended) at the concrete token `"e30"`. -/
theorem C2_witness :
    (jsonParse (utf8Decode (base64urlDecode ['e', '3', '0'])) = some (Json.obj []) ∧
      jsGet (Json.obj []) vKey = none) ∧
    Cursor.decode ['e', '3', '0'] = none :=
  ⟨⟨rfl, rfl⟩, C2_amended_vo_validation ['e', '3', '0'] (Json.obj []) rfl (Or.inl rfl)⟩

/-- Witness for C3 on a concrete forward page of three entities with
limit 2. -/
theorem C3_witness :
    (CursorPaginator.buildResult (fun s => s) [['a'], ['b'], ['c']]
      ⟨2, none, none⟩).data ≠ [] ∧
    (CursorPaginator.buildResult (fun s => s) [['a'], ['b'], ['c']]
      ⟨2, none, none⟩).pagination.hasNextPage = true ∧
    (CursorPaginator.buildResult (fun s => s) [['a'], ['b'], ['c']]
      ⟨2, none, none⟩).pagination.hasPrevPage = false ∧
    (CursorPaginator.buildResult (fun s => s) [['a'], ['b'], ['c']]
      ⟨2, none, none⟩).pagination.nextCursor =
      ((CursorPaginator.buildResult (fun s => s) [['a'], ['b'], ['c']]
        ⟨2, none, none⟩).data.getLast?).map
        (fun i => CursorPaginator.encode i CursorDirection.forward) :=
  ⟨by decide,
   ((C3_flags_and_cursors (fun s => s) [['a'], ['b'], ['c']] ⟨2, none, none⟩ (by decide)).1
      rfl).1,
   ((C3_flags_and_cursors (fun s => s) [['a'], ['b'], ['c']] ⟨2, none, none⟩ (by decide)).1
      rfl).2,
   (C3_flags_and_cursors (fun s => s) [['a'], ['b'], ['c']] ⟨2, none, none⟩ (by decide)).2.2.1
      rfl⟩

/-- Witness for C4 (amended) on concrete batches above and below the
limit. -/
theorem C4_witness :
    (1 ≤ 2 ∧ ([10, 20, 30] : List Nat).length > 2 ∧
      (CursorPaginator.buildResult (fun _ => ['x']) [10, 20, 30] ⟨2, none, none⟩).data.length = 2 ∧
      (CursorPaginator.buildResult (fun _ => ['x']) [10, 20, 30]
        ⟨2, none, none⟩).pagination.hasNextPage = true) ∧
    (([10] : List Nat).length ≤ 2 ∧
      (CursorPaginator.buildResult (fun _ => ['x']) [10] ⟨2, none, none⟩).data.length = 1 ∧
      (CursorPaginator.buildResult (fun _ => ['x']) [10]
        ⟨2, none, none⟩).pagination.hasNextPage = false) :=
  ⟨⟨by decide, by decide,
    ((C4_windowing_amended (fun _ => ['x']) [10, 20, 30] ⟨2, none, none⟩ (by decide)).1
      (by decide)).1,
    ((C4_windowing_amended (fun _ => ['x']) [10, 20, 30] ⟨2, none, none⟩ (by decide)).1
      (by decide)).2.2⟩,
   ⟨by decide,
    ((C4_windowing_amended (fun _ => ['x']) [10] ⟨2, none, none⟩ (by decide)).2 (by decide)).1,
    ((C4_windowing_amended (fun _ => ['x']) [10] ⟨2, none, none⟩ (by decide)).2 (by decide)).2⟩⟩

/-- Witness for C5 on a concrete backward page and a concrete forward
page. -/
theorem C5_witness :
    CursorPaginator.effectiveDirection
      ⟨2, some (CursorPaginator.encode ['x'] CursorDirection.backward), none⟩ =
      Json.str "backward".toList ∧
    (CursorPaginator.buildResult (fun _ => ['x']) [10, 20, 30]
      ⟨2, some (CursorPaginator.encode ['x'] CursorDirection.backward), none⟩).data =
      (([10, 20, 30] : List Nat).take 2).reverse ∧
    (CursorPaginator.buildResult (fun _ => ['x']) [10, 20, 30] ⟨2, none, none⟩).data =
      ([10, 20, 30] : List Nat).take 2 :=
  ⟨rfl,
   (C5_backward_reversal (fun _ => ['x']) [10, 20, 30]
     ⟨2, some (CursorPaginator.encode ['x'] CursorDirection.backward), none⟩).1 rfl,
   (C5_backward_reversal (fun _ => ['x']) [10, 20, 30] ⟨2, none, none⟩).2 rfl⟩

/-- Witness for C7 (amended): a well-formed backward token, an absent
cursor, and a raw unvalidated direction value. -/
theorem C7_witness :
    CursorPaginator.effectiveDirection
      ⟨5, some (CursorPaginator.encode ['x'] CursorDirection.backward), none⟩ =
      Json.str "backward".toList ∧
    CursorPaginator.effectiveDirection ⟨5, none, some CursorDirection.forward⟩ =
      Json.str "forward".toList ∧
    CursorPaginator.effectiveDirection
      ⟨5, some (base64urlEncode (utf8Encode
        (lbrace :: "\"v\":\"x\",\"d\":\"sideways\"".toList ++ [rbrace]))),
        some CursorDirection.forward⟩ = Json.str "sideways".toList :=
  ⟨C7_amended_direction_resolution.1 _ ['x'] CursorDirection.backward rfl,
   C7_amended_direction_resolution.2.1 _ (Or.inl rfl),
   C7_amended_direction_resolution.2.2.1 _
     (base64urlEncode (utf8Encode
       (lbrace :: "\"v\":\"x\",\"d\":\"sideways\"".toList ++ [rbrace])))
     ⟨some (Json.str ['x']), some (Json.str "sideways".toList)⟩
     (Json.str "sideways".toList) rfl (by decide) rfl rfl
     (fun h => Json.noConfusion h)⟩

/-- C4 counterexample: at `limit = 0` (outside the data model's 1..100 range
but inside the claim's "every limit") a single entity over-fetches
(`entities.length > limit`), the effective direction is forward, yet
`hasNextPage` is false because the trimmed page is empty and the empty-data
guard wins — contradicting the claim that the over-fetch flag is true. -/
theorem C4_counterexample :
    ([10] : List Nat).length > 0 ∧
    CursorPaginator.effectiveDirection ⟨0, none, none⟩ = Json.str "forward".toList ∧
    (CursorPaginator.buildResult (fun _ => ['x']) [10] ⟨0, none, none⟩).data.length = 0 ∧
    (CursorPaginator.buildResult (fun _ => ['x']) [10]
      ⟨0, none, none⟩).pagination.hasNextPage = false :=
  ⟨by decide, rfl, rfl, rfl⟩

end Pagination


